import Mathlib

/-!
Shallow embedding of the bbscript instruction codec (src/game_config.rs,
src/parser.rs, src/rebuilder.rs) and proofs about its specification claims.

Conventions of the embedding:
* bytes are `Nat` values below 256, byte buffers are `List Nat`;
* Rust `u32` and `usize` become `Nat`, `i32` becomes `Int` with explicit
  two-complement reduction modulo 2 ^ 32 at the wire boundary;
* fallible reads from a byte cursor return `Option` where the source would
  abort on buffer underrun, and `Option` around `Except` models the
  distinction between a process abort (`none`) and a typed error value;
* Rust `HashMap` catalogs become association lists, `BiMap` becomes an
  association list searched from either side.
-/

set_option maxRecDepth 8192

namespace BBScript

/-- Byte order selected once per run, mirroring the byteorder crate
parameter `B : ByteOrder` of `rebuild_bbscript`. -/
inductive ByteOrder
  | le
  | be
  deriving DecidableEq, Repr

/-- Little-endian digits of a 32-bit value, least significant byte first. -/
def u32Bytes (n : Nat) : List Nat :=
  [n % 256, n / 256 % 256, n / 65536 % 256, n / 16777216 % 256]

/-- Embeds `write_u32::<B>`: four bytes in the selected order. -/
def writeU32 (bo : ByteOrder) (n : Nat) : List Nat :=
  match bo with
  | .le => u32Bytes n
  | .be => (u32Bytes n).reverse

/-- Two-complement image of an `i32` inside `u32`. -/
def i32ToU32 (n : Int) : Nat := (n % 4294967296).toNat

/-- Embeds `write_i32::<B>`. -/
def writeI32 (bo : ByteOrder) (n : Int) : List Nat := writeU32 bo (i32ToU32 n)

/-- Embeds `Bytes::get_u32_le`: `none` models the underrun abort. -/
def getU32le (l : List Nat) : Option (Nat × List Nat) :=
  match l with
  | a :: b :: c :: d :: rest => some (a + 256 * b + 65536 * c + 16777216 * d, rest)
  | _ => none

/-- Reinterpret a `u32` value as an `i32`. -/
def toI32 (n : Nat) : Int :=
  if n < 2147483648 then (n : Int) else (n : Int) - 4294967296

/-- Embeds `Bytes::get_i32_le`. -/
def getI32le (l : List Nat) : Option (Int × List Nat) :=
  (getU32le l).map (fun p => (toI32 p.1, p.2))

/-- Embeds reading a fixed number of raw bytes (`copy_to_slice` or a run of
`get_u8` calls): `none` models the underrun abort. -/
def takeBytes (n : Nat) (l : List Nat) : Option (List Nat × List Nat) :=
  if n ≤ l.length then some (l.take n, l.drop n) else none

/-- Embeds the count-reading loop of `ScriptConfig::parse`: one `get_u32_le`
per jump-eligible ID, returning the sum of the counts and the rest of the
input. -/
def readCounts : Nat → List Nat → Option (Nat × List Nat)
  | 0, input => some (0, input)
  | n + 1, input =>
    match getU32le input with
    | none => none
    | some (c, r) => (readCounts n r).map (fun p => (c + p.1, p.2))

/-- Embeds `game_config::ArgType`. -/
inductive ArgType
  | Unknown (n : Nat)
  | String16
  | String32
  | Number
  | Enum (name : String)
  | AccessedValue
  deriving DecidableEq, Repr

/-- Embeds `ArgType::size`. -/
def ArgType.size : ArgType → Nat
  | .Unknown n => n
  | .Number => 4
  | .Enum _ => 4
  | .String16 => 16
  | .String32 => 32
  | .AccessedValue => 8

/-- Sum of the declared sizes of a schema argument list. -/
def sumArgSizes (l : List ArgType) : Nat := (l.map ArgType.size).sum

/-- Embeds `game_config::CodeBlock` (the feature-gated legacy
`BeginJumpEntry` variant is compiled out of the runtime codec). -/
inductive CodeBlock
  | Begin
  | End
  | NoBlock
  deriving DecidableEq, Repr

/-- Embeds `game_config::SizedInstruction`; `args` is the raw schema field. -/
structure SizedInstruction where
  size : Nat
  name : String
  code_block : CodeBlock
  args : List ArgType
  deriving DecidableEq, Repr

/-- Embeds the method `SizedInstruction::args`, which appends a synthesized
`Unknown` argument when the declared argument sizes do not account for the
whole fixed record (the source subtractions are `usize - 4` and a
`saturating_sub`; truncated `Nat` subtraction matches both for sizes of at
least 4). -/
def SizedInstruction.fullArgs (i : SizedInstruction) : List ArgType :=
  if sumArgSizes i.args ≠ i.size - 4 then
    i.args ++ [.Unknown (i.size - 4 - sumArgSizes i.args)]
  else
    i.args

/-- Embeds `game_config::UnsizedInstruction`. -/
structure UnsizedInstruction where
  name : String
  code_block : CodeBlock
  args : List ArgType
  deriving DecidableEq, Repr

/-- Embeds `UnsizedInstruction::new`. -/
def UnsizedInstruction.new : UnsizedInstruction :=
  { name := "", code_block := .NoBlock, args := [] }

/-- Embeds `UnsizedInstruction::from_parsed`. -/
def UnsizedInstruction.from_parsed (args : List ArgType) : UnsizedInstruction :=
  { name := "", code_block := .NoBlock, args := args }

/-- Embeds `UnsizedInstruction::args_with_known_size`; the source aborts the
process when the known argument bytes exceed the declared dynamic size minus
the 8 header bytes, which this embedding models as `none`. -/
def UnsizedInstruction.args_with_known_size (i : UnsizedInstruction)
    (dynamic_size : Nat) : Option (List ArgType) :=
  if sumArgSizes i.args > dynamic_size - 8 then
    none
  else if sumArgSizes i.args ≠ dynamic_size - 8 then
    some (i.args ++ [.Unknown (dynamic_size - 8 - sumArgSizes i.args)])
  else
    some i.args

/-- Embeds `game_config::InstructionInfo`; the `HashMap` catalogs become
association lists keyed by opcode ID. -/
inductive InstructionInfo
  | Sized (m : List (Nat × SizedInstruction))
  | Unsized (m : List (Nat × UnsizedInstruction))
  deriving DecidableEq, Repr

/-- Embeds `game_config::ScriptConfig`; the two `BiMap` fields become
association lists searched from either side. -/
structure ScriptConfig where
  jump_table_ids : List Nat
  literal_tag : Int
  variable_tag : Int
  named_variables : List (Int × String)
  named_value_maps : List (String × List (Int × String))
  instructions : InstructionInfo
  deriving DecidableEq, Repr

/-- Association-list lookup by opcode ID, embedding `HashMap::get`. -/
def lookupId {β : Type} : List (Nat × β) → Nat → Option β
  | [], _ => none
  | (k, v) :: rest, id => if k = id then some v else lookupId rest id

/-- Lookup in an association list keyed by strings, embedding indexing of
`named_value_maps`. -/
def lookupStr {β : Type} : List (String × β) → String → Option β
  | [], _ => none
  | (k, v) :: rest, name => if k = name then some v else lookupStr rest name

/-- Embeds `BiMap::get_by_right` on a value-to-name map. -/
def lookupByRight : List (Int × String) → String → Option Int
  | [], _ => none
  | (v, n) :: rest, name => if n = name then some v else lookupByRight rest name

/-- Embeds `BiMap::get_by_left` on a value-to-name map. -/
def lookupByLeft : List (Int × String) → Int → Option String
  | [], _ => none
  | (v, n) :: rest, val => if v = val then some n else lookupByLeft rest val

/-- Embeds `game_config::GenericInstruction`. -/
inductive GenericInstruction
  | Sized (id : Nat) (i : SizedInstruction)
  | Unsized (id : Nat) (i : UnsizedInstruction)
  deriving DecidableEq, Repr

/-- Embeds `GenericInstruction::id`. -/
def GenericInstruction.id : GenericInstruction → Nat
  | .Sized id _ => id
  | .Unsized id _ => id

/-- Embeds the `Instruction::size` trait method reached through `Deref`. -/
def GenericInstruction.sizeOpt : GenericInstruction → Option Nat
  | .Sized _ i => some i.size
  | .Unsized _ _ => none

/-- Embeds the `Instruction::args` trait method reached through `Deref`
(the raw schema field, without any synthesized argument). -/
def GenericInstruction.argTypes : GenericInstruction → List ArgType
  | .Sized _ i => i.args
  | .Unsized _ i => i.args

/-- Search of the sized catalog by display name, embedding the
`iter().find` inside `ScriptConfig::get_by_name`. -/
def findSizedByName : List (Nat × SizedInstruction) → String → Option (Nat × SizedInstruction)
  | [], _ => none
  | (id, x) :: rest, name => if x.name = name then some (id, x) else findSizedByName rest name

/-- Search of the unsized catalog by display name. -/
def findUnsizedByName : List (Nat × UnsizedInstruction) → String → Option (Nat × UnsizedInstruction)
  | [], _ => none
  | (id, x) :: rest, name => if x.name = name then some (id, x) else findUnsizedByName rest name

/-- Embeds `ScriptConfig::get_by_name`. -/
def ScriptConfig.get_by_name (db : ScriptConfig) (name : String) : Option GenericInstruction :=
  match db.instructions with
  | .Sized m => (findSizedByName m name).map (fun p => .Sized p.1 p.2)
  | .Unsized m => (findUnsizedByName m name).map (fun p => .Unsized p.1 p.2)

/-- Embeds `ScriptConfig::get_by_id`. -/
def ScriptConfig.get_by_id (db : ScriptConfig) (id : Nat) : Option GenericInstruction :=
  match db.instructions with
  | .Sized m => (lookupId m id).map (fun x => .Sized id x)
  | .Unsized m => (lookupId m id).map (fun x => .Unsized id x)

/-- Embeds `ScriptConfig::get_enum_value`. -/
def ScriptConfig.get_enum_value (db : ScriptConfig) (enum_name variant : String) : Option Int :=
  (lookupStr db.named_value_maps enum_name).bind (fun m => lookupByRight m variant)

/-- Embeds `ScriptConfig::get_variable_by_name`. -/
def ScriptConfig.get_variable_by_name (db : ScriptConfig) (variable_name : String) : Option Int :=
  lookupByRight db.named_variables variable_name

/-- Embeds `ScriptConfig::is_unsized`. -/
def ScriptConfig.is_unsized (db : ScriptConfig) : Bool :=
  match db.instructions with
  | .Unsized _ => true
  | .Sized _ => false

/-- Embeds `ScriptConfig::is_jump_entry_id`. -/
def ScriptConfig.is_jump_entry_id (db : ScriptConfig) (id : Nat) : Bool :=
  db.jump_table_ids.contains id

/-- Embeds `error::BBScriptError` restricted to the variants the codec core
can construct (the I/O and config-loading variants live outside the codec). -/
inductive BBScriptError
  | UnknownInstructionName (name : String)
  | UnknownInstructionID (id : Nat)
  | NoVariableName (name : String)
  | NoEnum (index : Nat) (id : Nat)
  | NoAssociatedValue (variant : String) (enum_name : String)
  | IncorrectJumpTableSize (size : String)
  | IncorrectFunctionSize (name : String) (actual : Nat) (expected : Nat)
  deriving DecidableEq, Repr

/-- Embeds `game_config::TaggedValue`. -/
inductive TaggedValue
  | Literal (n : Int)
  | Variable (n : Int)
  | Improper (tag : Int) (value : Int)
  deriving DecidableEq, Repr

/-- Embeds `parser::ArgValue`. -/
inductive ArgValue
  | Unknown (data : List Nat)
  | Number (n : Int)
  | String16 (s : String)
  | String32 (s : String)
  | AccessedValue (t : TaggedValue)
  | Enum (name : String) (n : Int)
  deriving DecidableEq, Repr

/-- Embeds `parser::InstructionValue`. -/
structure InstructionValue where
  id : Nat
  name : Option String
  args : List ArgValue
  code_block : CodeBlock
  deriving DecidableEq, Repr

/-- Escape of embedded single quotes, embedding the final `replace` of
`process_string_buf`. -/
def escChars : List Char → List Char
  | [] => []
  | c :: rest => if c = '\'' then '\\' :: '\'' :: escChars rest else c :: escChars rest

/-- Embeds `parser::process_string_buf`: drop NUL bytes, view each remaining
byte as a character, escape embedded single quotes. -/
def process_string_buf (buf : List Nat) : String :=
  String.mk (escChars ((buf.filter (fun b => b ≠ 0)).map Char.ofNat))

/-- Embeds the per-argument decode match shared verbatim by `parse_sized`
and `parse_unsized`; `none` models the underrun abort of the byte reads. -/
def decodeArg (db : ScriptConfig) (t : ArgType) (input : List Nat) :
    Option (ArgValue × List Nat) :=
  match t with
  | .Unknown n => (takeBytes n input).map (fun p => (.Unknown p.1, p.2))
  | .String16 => (takeBytes 16 input).map (fun p => (.String16 (process_string_buf p.1), p.2))
  | .String32 => (takeBytes 32 input).map (fun p => (.String32 (process_string_buf p.1), p.2))
  | .Number => (getI32le input).map (fun p => (.Number p.1, p.2))
  | .Enum s => (getI32le input).map (fun p => (.Enum s p.1, p.2))
  | .AccessedValue =>
    match getI32le input with
    | none => none
    | some (tag, r1) =>
      match getI32le r1 with
      | none => none
      | some (value, r2) =>
        if tag = db.literal_tag then some (.AccessedValue (.Literal value), r2)
        else if tag = db.variable_tag then some (.AccessedValue (.Variable value), r2)
        else some (.AccessedValue (.Improper tag value), r2)

/-- Decode of a schema argument list in order, embedding the `map` over
argument types inside the two instruction decoders. -/
def decodeArgs (db : ScriptConfig) : List ArgType → List Nat → Option (List ArgValue × List Nat)
  | [], input => some ([], input)
  | t :: ts, input =>
    match decodeArg db t input with
    | none => none
    | some (v, r) => (decodeArgs db ts r).map (fun p => (v :: p.1, p.2))

/-- Embeds `ScriptConfig::parse_sized`. -/
def parse_sized (db : ScriptConfig) (id_map : List (Nat × SizedInstruction))
    (input : List Nat) : Option (Except BBScriptError (InstructionValue × List Nat)) :=
  match getU32le input with
  | none => none
  | some (instruction_id, r1) =>
    match lookupId id_map instruction_id with
    | none => some (.error (.UnknownInstructionID instruction_id))
    | some instruction =>
      match decodeArgs db instruction.fullArgs r1 with
      | none => none
      | some (args, rest) =>
        some (.ok
          ({ id := instruction_id
             name := if instruction.name.isEmpty then none else some instruction.name
             args := args
             code_block := instruction.code_block }, rest))

/-- Embeds `ScriptConfig::parse_unsized`; an opcode ID absent from the
catalog falls back to `UnsizedInstruction::new` instead of failing. -/
def parse_unsized (db : ScriptConfig) (id_map : List (Nat × UnsizedInstruction))
    (input : List Nat) : Option (Except BBScriptError (InstructionValue × List Nat)) :=
  match getU32le input with
  | none => none
  | some (instruction_id, r1) =>
    match getU32le r1 with
    | none => none
    | some (instruction_size, r2) =>
      let instruction := (lookupId id_map instruction_id).getD UnsizedInstruction.new
      match instruction.args_with_known_size instruction_size with
      | none => none
      | some arg_types =>
        match decodeArgs db arg_types r2 with
        | none => none
        | some (args, rest) =>
          some (.ok
            ({ id := instruction_id
               name := if instruction.name.isEmpty then none else some instruction.name
               args := args
               code_block := instruction.code_block }, rest))

/-- One iteration of the decode loop of `ScriptConfig::parse_script`,
dispatching on the catalog mode. -/
def parseOne (db : ScriptConfig) (input : List Nat) :
    Option (Except BBScriptError (InstructionValue × List Nat)) :=
  match db.instructions with
  | .Sized m => parse_sized db m input
  | .Unsized m => parse_unsized db m input

/-- Embeds the `while input.remaining() != 0` loop of
`ScriptConfig::parse_script`; the fuel argument only bounds the recursion
and is never exhausted on the values reached from `parseScript`, because
every iteration consumes at least the 4 opcode ID bytes. -/
def parseScriptFuel (db : ScriptConfig) : Nat → List Nat → Option (Except BBScriptError (List InstructionValue))
  | 0, _ => none
  | _ + 1, [] => some (.ok [])
  | fuel + 1, input =>
    match parseOne db input with
    | none => none
    | some (.error e) => some (.error e)
    | some (.ok (iv, rest)) =>
      (parseScriptFuel db fuel rest).map (Except.map (fun l => iv :: l))

/-- Embeds `ScriptConfig::parse_script`. -/
def parseScript (db : ScriptConfig) (input : List Nat) :
    Option (Except BBScriptError (List InstructionValue)) :=
  parseScriptFuel db (input.length + 1) input

/-- Embeds `ScriptConfig::parse`: read one 4-byte count per jump-eligible
ID (always little-endian in the source), reject the input when the computed
jump table size is at least the remaining length, otherwise skip the table
and decode the instruction stream. -/
def ScriptConfig.parse (db : ScriptConfig) (input : List Nat) :
    Option (Except BBScriptError (List InstructionValue)) :=
  match readCounts db.jump_table_ids.length input with
  | none => none
  | some (total, rest) =>
    let jump_table_size := 36 * total
    if jump_table_size ≥ rest.length then
      some (.error (.IncorrectJumpTableSize (toString jump_table_size)))
    else
      parseScript db (rest.drop jump_table_size)

/-- Single-quote character as a string, for the textual string forms. -/
def sq : String := String.mk ['\'']

/-- Upper-case hexadecimal digit. -/
def hexDigitUpper (n : Nat) : Char :=
  if n < 10 then Char.ofNat (48 + n) else Char.ofNat (55 + n)

/-- Embeds `hex::encode_upper` on a byte list. -/
def encode_upper (l : List Nat) : String :=
  String.join (l.map (fun b => String.mk [hexDigitUpper (b / 16 % 16), hexDigitUpper (b % 16)]))

/-- Embeds `parser::arg_to_string`; the `Enum` arm indexes
`named_value_maps` and aborts when the referenced map is missing, which this
embedding models as `none`. -/
def arg_to_string (config : ScriptConfig) : ArgValue → Option String
  | .Unknown data => some (("0x") ++ encode_upper data)
  | .Number n => some (toString n)
  | .String16 s => some (("s16") ++ sq ++ s ++ sq)
  | .String32 s => some (("s32") ++ sq ++ s ++ sq)
  | .AccessedValue (.Improper tag value) =>
    some (("BadTag(") ++ toString tag ++ (", ") ++ toString value ++ (")"))
  | .AccessedValue (.Variable val) =>
    some (("Mem(") ++ ((lookupByLeft config.named_variables val).getD (toString val)) ++ (")"))
  | .AccessedValue (.Literal val) => some (("Val(") ++ toString val ++ (")"))
  | .Enum name val =>
    match lookupStr config.named_value_maps name with
    | none => none
    | some m =>
      match lookupByLeft m val with
      | some n => some (("(") ++ n ++ (")"))
      | none => some (toString val)

/-- Embeds `rebuilder::ParserValue`; the fixed strings and the raw blob
carry their byte contents like the `Bytes` values of the source. -/
inductive ParserValue
  | String32 (b : List Nat)
  | String16 (b : List Nat)
  | Named (variant : String)
  | Number (n : Int)
  | Raw (b : List Nat)
  | NamedMem (name : String)
  | Mem (var_id : Int)
  | Val (v : Int)
  | BadTag (tag : Int) (v : Int)
  deriving DecidableEq, Repr

/-- Per-argument byte size table of `BBSFunction::total_size`. -/
def ParserValue.argSize : ParserValue → Nat
  | .String32 _ => 32
  | .String16 _ => 16
  | .Raw b => b.length
  | .Mem _ => 8
  | .NamedMem _ => 8
  | .Val _ => 8
  | .BadTag _ _ => 8
  | .Named _ => 4
  | .Number _ => 4

/-- Embeds `ParserValue::to_arg_type`; the `Named` arm aborts the process
in the source, which this embedding models as `none`. -/
def ParserValue.to_arg_type : ParserValue → Option ArgType
  | .String32 _ => some .String32
  | .String16 _ => some .String16
  | .Named _ => none
  | .Number _ => some .Number
  | .Raw data => some (.Unknown data.length)
  | .NamedMem _ => some .AccessedValue
  | .Mem _ => some .AccessedValue
  | .Val _ => some .AccessedValue
  | .BadTag _ _ => some .AccessedValue

/-- Recognizer for the `Named` variant, used to state which parsed calls
can reach the aborting arm of `ParserValue::to_arg_type`. -/
def ParserValue.isNamed : ParserValue → Bool
  | .Named _ => true
  | _ => false

/-- Embeds `rebuilder::BBSFunction`: one parsed textual call. -/
structure BBSFunction where
  name : String
  args : List ParserValue
  deriving DecidableEq, Repr

/-- Embeds `BBSFunction::total_size`: 4 header bytes plus the per-argument
sizes. -/
def BBSFunction.total_size (f : BBSFunction) : Nat :=
  4 + (f.args.map ParserValue.argSize).sum

/-- Embeds `str::trim_start_matches("Unknown")`: repeatedly remove the
prefix. -/
def stripUnknowns : List Char → List Char
  | 'U' :: 'n' :: 'k' :: 'n' :: 'o' :: 'w' :: 'n' :: rest => stripUnknowns rest
  | l => l

/-- String wrapper of `stripUnknowns`. -/
def trimUnknowns (s : String) : String := String.mk (stripUnknowns s.data)

/-- Embeds `str::parse::<u32>`: an optional leading plus sign followed by at
least one decimal digit, rejecting values outside `u32`. -/
def parseU32 (s : String) : Option Nat :=
  let l := match s.data with
    | '+' :: rest => rest
    | l => l
  if !l.isEmpty && l.all Char.isDigit then
    let v := l.foldl (fun a c => a * 10 + (c.toNat - 48)) 0
    if v < 4294967296 then some v else none
  else none

/-- Embeds the `map(to_arg_type).collect()` of the fallback path; the
whole conversion aborts (`none`) as soon as one argument hits the aborting
`Named` arm. -/
def toArgTypes : List ParserValue → Option (List ArgType)
  | [] => some []
  | a :: rest =>
    match a.to_arg_type with
    | none => none
    | some t => (toArgTypes rest).map (fun ts => t :: ts)

/-- Embeds the instruction-resolution chain at the top of the loop of
`assemble_script`: exact name match, then the `UnknownN` numeric ID, then
the permissive fallback that builds an ad-hoc unsized definition from the
argument list of the call itself (`none` models the abort inside
`to_arg_type` when that fallback meets a `Named` argument). -/
def resolveInstruction (db : ScriptConfig) (f : BBSFunction) :
    Option (Except BBScriptError GenericInstruction) :=
  match db.get_by_name f.name with
  | some i => some (.ok i)
  | none =>
    match parseU32 (trimUnknowns f.name) with
    | none => some (.error (.UnknownInstructionName f.name))
    | some id =>
      match db.get_by_id id with
      | some i => some (.ok i)
      | none =>
        match toArgTypes f.args with
        | none => none
        | some args => some (.ok (.Unsized id (UnsizedInstruction.from_parsed args)))

/-- Embeds one arm of the argument-emission match of `assemble_script`. -/
def encodeArg (bo : ByteOrder) (db : ScriptConfig) (info : GenericInstruction)
    (index : Nat) : ParserValue → Except BBScriptError (List Nat)
  | .String32 b => .ok b
  | .String16 b => .ok b
  | .Raw b => .ok b
  | .Number n => .ok (writeI32 bo n)
  | .Named variant =>
    match info.argTypes.get? index with
    | some (.Enum enum_name) =>
      match db.get_enum_value enum_name variant with
      | some v => .ok (writeI32 bo v)
      | none => .error (.NoAssociatedValue variant enum_name)
    | _ => .error (.NoEnum index info.id)
  | .Mem var_id => .ok (writeI32 bo db.variable_tag ++ writeI32 bo var_id)
  | .NamedMem name =>
    match db.get_variable_by_name name with
    | some var_id => .ok (writeI32 bo db.variable_tag ++ writeI32 bo var_id)
    | none => .error (.NoVariableName name)
  | .Val v => .ok (writeI32 bo db.literal_tag ++ writeI32 bo v)
  | .BadTag tag v => .ok (writeI32 bo tag ++ writeI32 bo v)

/-- Emission of the argument list of one call, in order, starting at a
given argument index. -/
def encodeArgsFrom (bo : ByteOrder) (db : ScriptConfig) (info : GenericInstruction) :
    Nat → List ParserValue → Except BBScriptError (List Nat)
  | _, [] => .ok []
  | index, a :: rest =>
    match encodeArg bo db info index a with
    | .error e => .error e
    | .ok b =>
      match encodeArgsFrom bo db info (index + 1) rest with
      | .error e => .error e
      | .ok bs => .ok (b ++ bs)

/-- Mutable state of the loop of `assemble_script`: the running offset, the
instruction-stream buffer, and the jump-table accumulator (a single entry
count and a single entry buffer in the source). -/
structure AsmState where
  offset : Nat
  script : List Nat
  jumpCount : Nat
  jumpTable : List Nat
  deriving DecidableEq, Repr

/-- Emission phase of one loop iteration of `assemble_script`, after the
size check: write the opcode ID, the dynamic size field when the catalog is
unsized, record a jump-table entry when the ID is jump-eligible and the
first argument is a 32-byte string, then emit the arguments. -/
def assembleStepEmit (bo : ByteOrder) (db : ScriptConfig) (st : AsmState)
    (f : BBSFunction) (info : GenericInstruction) : Except BBScriptError AsmState :=
  let script1 := st.script ++ writeU32 bo info.id
  let script2 := if db.is_unsized then script1 ++ writeU32 bo (f.total_size + 4) else script1
  let jump :=
    if db.is_jump_entry_id info.id then
      match f.args.head? with
      | some (.String32 name) =>
        (st.jumpTable ++ name ++ writeU32 bo st.offset, st.jumpCount + 1)
      | _ => (st.jumpTable, st.jumpCount)
    else (st.jumpTable, st.jumpCount)
  match encodeArgsFrom bo db info 0 f.args with
  | .error e => .error e
  | .ok bs =>
    let script3 := script2 ++ bs
    .ok { offset := script3.length, script := script3, jumpCount := jump.2, jumpTable := jump.1 }

/-- One full loop iteration of `assemble_script` on one parsed call. -/
def assembleStep (bo : ByteOrder) (db : ScriptConfig) (st : AsmState)
    (f : BBSFunction) : Option (Except BBScriptError AsmState) :=
  match resolveInstruction db f with
  | none => none
  | some (.error e) => some (.error e)
  | some (.ok info) =>
    match info.sizeOpt with
    | some instruction_size =>
      if f.total_size ≠ instruction_size then
        some (.error (.IncorrectFunctionSize f.name f.total_size instruction_size))
      else
        some (assembleStepEmit bo db st f info)
    | none => some (assembleStepEmit bo db st f info)

/-- The loop of `assemble_script` over the whole program. -/
def assembleGo (bo : ByteOrder) (db : ScriptConfig) :
    AsmState → List BBSFunction → Option (Except BBScriptError AsmState)
  | st, [] => some (.ok st)
  | st, f :: rest =>
    match assembleStep bo db st f with
    | none => none
    | some (.error e) => some (.error e)
    | some (.ok st2) => assembleGo bo db st2 rest

/-- Embeds `rebuilder::assemble_script`: run the loop from the empty state,
then prefix the single 4-byte jump entry count and the jump-table buffer to
the instruction stream. -/
def assembleScript (bo : ByteOrder) (db : ScriptConfig) (program : List BBSFunction) :
    Option (Except BBScriptError (List Nat)) :=
  (assembleGo bo db { offset := 0, script := [], jumpCount := 0, jumpTable := [] } program).map
    (Except.map (fun st => writeU32 bo st.jumpCount ++ st.jumpTable ++ st.script))

/-- UTF-8 bytes of one character, embedding how `BytesMut::from(&str)`
views string contents. -/
def charUtf8 (c : Char) : List Nat :=
  let n := c.toNat
  if n < 128 then [n]
  else if n < 2048 then [192 + n / 64, 128 + n % 64]
  else if n < 65536 then [224 + n / 4096, 128 + n / 64 % 64, 128 + n % 64]
  else [240 + n / 262144, 128 + n / 4096 % 64, 128 + n / 64 % 64, 128 + n % 64]

/-- UTF-8 bytes of a string. -/
def strBytes (s : String) : List Nat := (s.data.map charUtf8).flatten

/-- Embeds `str::replace` of an escaped quote by a quote, as used by
`rebuilder::unescaped`. -/
def unescChars : List Char → List Char
  | '\\' :: '\'' :: rest => '\'' :: unescChars rest
  | c :: rest => c :: unescChars rest
  | [] => []

/-- Embeds `rebuilder::unescaped`. -/
def unescaped (s : String) : String := String.mk (unescChars s.data)

/-- Embeds `rebuilder::string_to_bytes_of_size`: remove escapes, then
`BytesMut::resize` the bytes to exactly `size`, truncating when longer and
zero-filling when shorter. -/
def string_to_bytes_of_size (input : String) (size : Nat) : List Nat :=
  let b := strBytes (unescaped input)
  b.take size ++ List.replicate (size - b.length) 0

/-- Negation of the `if let Some(ParserValue::String32(..))` guard on the
first argument inside the jump-table branch of `assemble_script`. -/
def notString32Head (f : BBSFunction) : Bool :=
  match f.args.head? with
  | some (.String32 _) => false
  | _ => true

/-! General lemmas about the byte primitives. -/

theorem length_writeU32 (bo : ByteOrder) (n : Nat) : (writeU32 bo n).length = 4 := by
  cases bo <;> simp [writeU32, u32Bytes]

theorem length_writeI32 (bo : ByteOrder) (n : Int) : (writeI32 bo n).length = 4 := by
  simp [writeI32, length_writeU32]

theorem getU32le_writeU32_le (n : Nat) (h : n < 4294967296) (r : List Nat) :
    getU32le (writeU32 .le n ++ r) = some (n, r) := by
  simp only [writeU32, u32Bytes, List.cons_append, List.nil_append, getU32le,
    Option.some.injEq, Prod.mk.injEq, and_true]
  omega

theorem getI32le_writeI32_le (n : Int) (h1 : -2147483648 ≤ n) (h2 : n < 2147483648)
    (r : List Nat) : getI32le (writeI32 .le n ++ r) = some (n, r) := by
  have hm : i32ToU32 n < 4294967296 := by
    unfold i32ToU32
    omega
  simp only [writeI32, getI32le, getU32le_writeU32_le _ hm r, Option.map_some]
  have : toI32 (i32ToU32 n) = n := by
    unfold toI32 i32ToU32
    split <;> omega
  simp [this]

/-! Concrete catalogs and programs used by the claim theorems. -/

/-- Two-jump-ID sized catalog: instruction 1 is `A1` and instruction 2 is
`A2`, each of fixed size 36 with one 32-byte string argument, and both IDs
are jump-eligible. -/
def c1db : ScriptConfig :=
  { jump_table_ids := [1, 2], literal_tag := 0, variable_tag := 2,
    named_variables := [], named_value_maps := [],
    instructions := .Sized
      [ (1, { size := 36, name := "A1", code_block := .NoBlock, args := [.String32] }),
        (2, { size := 36, name := "A2", code_block := .NoBlock, args := [.String32] }) ] }

/-- One jump-named call to each of the two jump-eligible instructions. -/
def c1prog : List BBSFunction :=
  [ { name := "A1", args := [.String32 (string_to_bytes_of_size ("X") 32)] },
    { name := "A2", args := [.String32 (string_to_bytes_of_size ("Y") 32)] } ]

/-- Encoder output on `c1db` and `c1prog`. -/
def c1out : List Nat :=
  match assembleScript .le c1db c1prog with
  | some (.ok o) => o
  | _ => []

/-- C1: the claim says the encoder serializes one 4-byte count per
catalog-declared jump-eligible ID, grouped per ID in catalog order. The
code instead keeps a single aggregate entry counter and a single entry
buffer in encounter order: on a catalog with two jump-eligible IDs and one
entry for each, the output starts with the single count field `2` where the
claimed layout has the two count fields `1, 1`, and the decoder of the same
repository, which does read one count per ID, rejects the encoder output
outright. -/
theorem jump_table_emitted_with_single_count :
    assembleScript .le c1db c1prog = some (.ok c1out)
      ∧ c1out.take 8 = [2, 0, 0, 0, 88, 0, 0, 0]
      ∧ ScriptConfig.parse c1db c1out
          = some (.error (.IncorrectJumpTableSize ("3240"))) :=
  ⟨rfl, rfl, rfl⟩

/-- Single-jump-ID sized catalog with instruction 1 `Op` of fixed size 8
and one `Number` argument. -/
def c2db : ScriptConfig :=
  { jump_table_ids := [5], literal_tag := 0, variable_tag := 2,
    named_variables := [], named_value_maps := [],
    instructions := .Sized
      [(1, { size := 8, name := "Op", code_block := .NoBlock, args := [.Number] })] }

/-- The one-call program `Op: 42`. -/
def c2prog : List BBSFunction := [{ name := "Op", args := [.Number 42] }]

/-- C2: the claim says every decode reads multi-byte fields in the byte
order selected for the run, the same order that parameterizes the encoder.
The encoder is indeed parameterized, but `ScriptConfig::parse` reads every
field with the `_le` accessors: decoding the little-endian encoding of
`Op: 42` succeeds, while decoding the big-endian encoding produced by the
same run misreads opcode ID 1 as 16777216 and fails, because the selected
byte order never reaches the decoder. -/
theorem decoder_reads_little_endian_regardless :
    assembleScript .le c2db c2prog = some (.ok [0, 0, 0, 0, 1, 0, 0, 0, 42, 0, 0, 0])
      ∧ assembleScript .be c2db c2prog = some (.ok [0, 0, 0, 0, 0, 0, 0, 1, 0, 0, 0, 42])
      ∧ ScriptConfig.parse c2db [0, 0, 0, 0, 1, 0, 0, 0, 42, 0, 0, 0]
          = some (.ok [{ id := 1, name := some ("Op"), args := [.Number 42],
                         code_block := .NoBlock }])
      ∧ ScriptConfig.parse c2db [0, 0, 0, 0, 0, 0, 0, 1, 0, 0, 0, 42]
          = some (.error (.UnknownInstructionID 16777216)) :=
  ⟨rfl, rfl, rfl, rfl⟩

/-- Sized catalog with instruction 1 `Op16` of fixed size 20 and one
16-byte string argument. -/
def c3db : ScriptConfig :=
  { jump_table_ids := [], literal_tag := 0, variable_tag := 2,
    named_variables := [], named_value_maps := [],
    instructions := .Sized
      [(1, { size := 20, name := "Op16", code_block := .NoBlock, args := [.String16] })] }

/-- C3 counterexample: the claim says encoding a string longer than its
capacity is a fatal error and never a silent truncation. The code resizes
unconditionally: a 17-byte string bound for a 16-byte slot comes back as
its first 16 bytes, and the whole encode pass succeeds, emitting the
truncated bytes. -/
theorem string_overflow_truncated_without_error :
    string_to_bytes_of_size ("AAAAAAAAAAAAAAAAA") 16 = List.replicate 16 65
      ∧ assembleScript .le c3db
          [{ name := "Op16",
             args := [.String16 (string_to_bytes_of_size ("AAAAAAAAAAAAAAAAA") 16)] }]
          = some (.ok ([0, 0, 0, 0, 1, 0, 0, 0] ++ List.replicate 16 65)) :=
  ⟨rfl, rfl⟩

/-- C3 (amended): `string_to_bytes_of_size` always returns exactly `size`
bytes, truncating the unescaped string when it is longer and zero-filling
when it is shorter; no input makes it fail. -/
theorem string_to_bytes_resizes_exactly (s : String) (size : Nat) :
    (string_to_bytes_of_size s size).length = size
      ∧ (size ≤ (strBytes (unescaped s)).length →
          string_to_bytes_of_size s size = (strBytes (unescaped s)).take size) := by
  constructor
  · simp only [string_to_bytes_of_size, List.length_append, List.length_take,
      List.length_replicate]
    omega
  · intro h
    simp [string_to_bytes_of_size, Nat.sub_eq_zero_of_le h]

/-- C3 (amended) witness at the concrete over-long input. -/
theorem string_to_bytes_resizes_exactly_witness :
    string_to_bytes_of_size ("AB") 1 = (strBytes (unescaped ("AB"))).take 1 :=
  (string_to_bytes_resizes_exactly ("AB") 1).2 (by decide)

/-- Sized catalog used to exercise the encoder resolution chain: only
instruction 1 `Op` exists. -/
def c4db : ScriptConfig :=
  { jump_table_ids := [], literal_tag := 0, variable_tag := 2,
    named_variables := [], named_value_maps := [],
    instructions := .Sized
      [(1, { size := 8, name := "Op", code_block := .NoBlock, args := [.Number] })] }

/-- C4 counterexample: the claim says that on a fixed-size catalog a call
resolving to neither a name nor a catalog ID always fails. The code takes
the ad-hoc unsized fallback regardless of the catalog mode: on the sized
catalog `c4db`, the call `Unknown7: 3` matches no entry yet encodes
successfully (and, the catalog being sized, without any size field). -/
theorem sized_catalog_uses_unsized_fallback :
    assembleScript .le c4db [{ name := "Unknown7", args := [.Number 3] }]
      = some (.ok [0, 0, 0, 0, 7, 0, 0, 0, 3, 0, 0, 0]) :=
  rfl

/-- C4 (amended): whenever the name lookup fails, the trimmed name parses
as a numeric ID, the ID lookup fails, and every argument converts through
`to_arg_type`, the resolution chain of `assemble_script` produces the
ad-hoc unsized definition built from the call argument list — in both
catalog modes; only a name that is not numeric after stripping `Unknown`
prefixes is fatal. -/
theorem unknown_id_fallback_in_any_mode (db : ScriptConfig) (f : BBSFunction)
    (id : Nat) (ats : List ArgType)
    (h1 : db.get_by_name f.name = none)
    (h2 : parseU32 (trimUnknowns f.name) = some id)
    (h3 : db.get_by_id id = none)
    (h4 : toArgTypes f.args = some ats) :
    resolveInstruction db f = some (.ok (.Unsized id (UnsizedInstruction.from_parsed ats))) := by
  simp [resolveInstruction, h1, h2, h3, h4]

/-- C4 (amended) witness on the sized catalog `c4db`. -/
theorem unknown_id_fallback_in_any_mode_witness :
    resolveInstruction c4db { name := "Unknown7", args := [.Number 3] }
      = some (.ok (.Unsized 7 (UnsizedInstruction.from_parsed [.Number]))) :=
  unknown_id_fallback_in_any_mode c4db _ 7 [.Number] rfl rfl rfl rfl

/-- Unsized instruction whose schema declares 4 known argument bytes. -/
def c5instr : UnsizedInstruction :=
  { name := "Dyn", code_block := .NoBlock, args := [.Number] }

/-- Unsized catalog containing only `c5instr` as instruction 1. -/
def c5db : ScriptConfig :=
  { jump_table_ids := [], literal_tag := 0, variable_tag := 2,
    named_variables := [], named_value_maps := [],
    instructions := .Unsized [(1, c5instr)] }

/-- C5 counterexample: the claim says every fatal condition other than an
argument-read underrun — naming the dynamic schema/size mismatch and the
fallback argument-shape mismatch explicitly — comes back as a typed error.
Both named conditions abort the process instead (modelled as `none`): a
dynamic record of declared size 9 whose schema claims 4 argument bytes
aborts inside `args_with_known_size` and therefore inside a top-level
decode whose bytes are all present, and a `Named` argument reaching the
encoder fallback aborts inside `to_arg_type` and therefore inside a
top-level encode. -/
theorem codec_aborts_on_schema_mismatch_and_named_fallback :
    UnsizedInstruction.args_with_known_size c5instr 9 = none
      ∧ ScriptConfig.parse c5db [1, 0, 0, 0, 9, 0, 0, 0] = none
      ∧ ParserValue.to_arg_type (.Named ("V")) = none
      ∧ assembleScript .le c4db [{ name := "Unknown9", args := [.Named ("V")] }] = none :=
  ⟨rfl, rfl, rfl, rfl⟩

theorem toArgTypes_isSome (args : List ParserValue)
    (h : args.all (fun a => !a.isNamed) = true) :
    ∃ ats, toArgTypes args = some ats := by
  induction args with
  | nil => exact ⟨[], rfl⟩
  | cons a rest ih =>
    simp only [List.all_cons, Bool.and_eq_true] at h
    obtain ⟨ats, hats⟩ := ih h.2
    have hsome : ∃ t, a.to_arg_type = some t := by
      cases a <;> simp [ParserValue.to_arg_type, ParserValue.isNamed] at h ⊢
    obtain ⟨t, ht⟩ := hsome
    exact ⟨t :: ats, by simp [toArgTypes, ht, hats]⟩

theorem resolveInstruction_isSome (db : ScriptConfig) (f : BBSFunction)
    (h : f.args.all (fun a => !a.isNamed) = true) :
    ∃ r, resolveInstruction db f = some r := by
  unfold resolveInstruction
  rcases hgn : db.get_by_name f.name with _ | i
  · dsimp only
    rcases hp : parseU32 (trimUnknowns f.name) with _ | id
    · exact ⟨_, rfl⟩
    · dsimp only
      rcases hgi : db.get_by_id id with _ | i
      · dsimp only
        obtain ⟨ats, hats⟩ := toArgTypes_isSome f.args h
        rw [hats]
        exact ⟨_, rfl⟩
      · exact ⟨_, rfl⟩
  · exact ⟨_, rfl⟩

theorem assembleStep_isSome (bo : ByteOrder) (db : ScriptConfig) (st : AsmState)
    (f : BBSFunction) (h : f.args.all (fun a => !a.isNamed) = true) :
    ∃ r, assembleStep bo db st f = some r := by
  obtain ⟨r0, hr⟩ := resolveInstruction_isSome db f h
  unfold assembleStep
  rw [hr]
  cases r0 with
  | error e => exact ⟨_, rfl⟩
  | ok info =>
    dsimp only
    rcases hsz : info.sizeOpt with _ | s
    · exact ⟨_, rfl⟩
    · dsimp only
      by_cases hc : f.total_size ≠ s
      · rw [if_pos hc]
        exact ⟨_, rfl⟩
      · rw [if_neg hc]
        exact ⟨_, rfl⟩

theorem assembleGo_isSome (bo : ByteOrder) (db : ScriptConfig) :
    ∀ (program : List BBSFunction) (st : AsmState),
      (∀ f ∈ program, f.args.all (fun a => !a.isNamed) = true) →
      ∃ r, assembleGo bo db st program = some r := by
  intro program
  induction program with
  | nil => exact fun st _ => ⟨_, rfl⟩
  | cons f rest ih =>
    intro st h
    obtain ⟨r, hr⟩ := assembleStep_isSome bo db st f (h f (by simp))
    unfold assembleGo
    rw [hr]
    cases r with
    | error e => exact ⟨_, rfl⟩
    | ok st2 => exact ih st2 (fun g hg => h g (by simp [hg]))

/-- C5 (amended): apart from the two aborting paths of the counterexample
(and the decoder byte-read underruns), the encoder fatal paths are typed
error values: a program in which no call carries a `Named` argument never
reaches the aborting arm, so `assemble_script` always returns an outcome —
a typed error or a byte stream. -/
theorem assemble_no_abort_without_named (bo : ByteOrder) (db : ScriptConfig)
    (program : List BBSFunction)
    (h : ∀ f ∈ program, f.args.all (fun a => !a.isNamed) = true) :
    ∃ r, assembleScript bo db program = some r := by
  obtain ⟨r, hr⟩ := assembleGo_isSome bo db program
    { offset := 0, script := [], jumpCount := 0, jumpTable := [] } h
  refine ⟨Except.map (fun st => writeU32 bo st.jumpCount ++ st.jumpTable ++ st.script) r, ?_⟩
  simp [assembleScript, hr]

/-- C5 (amended) witness: a call with an unresolvable non-numeric name and
no `Named` argument still yields an outcome (here a typed error). -/
theorem assemble_no_abort_without_named_witness :
    ∃ r, assembleScript .le c5db [{ name := "Nope", args := [.Number 1] }] = some r :=
  assemble_no_abort_without_named .le c5db _ (by decide)

/-- Well-formedness of the fixed-string argument values as the grammar
produces them: `string16`/`string32` nodes always carry exactly 16/32
bytes, because they go through `string_to_bytes_of_size`. -/
def ParserValue.sizedStringsOk : ParserValue → Bool
  | .String32 b => b.length == 32
  | .String16 b => b.length == 16
  | _ => true

theorem encodeArg_ok_length (bo : ByteOrder) (db : ScriptConfig) (info : GenericInstruction)
    (index : Nat) (a : ParserValue) (bs : List Nat)
    (hwf : a.sizedStringsOk = true)
    (h : encodeArg bo db info index a = .ok bs) : bs.length = a.argSize := by
  cases a with
  | String32 b =>
    simp only [encodeArg, Except.ok.injEq] at h
    simp only [ParserValue.sizedStringsOk, beq_iff_eq] at hwf
    simp [← h, ParserValue.argSize, hwf]
  | String16 b =>
    simp only [encodeArg, Except.ok.injEq] at h
    simp only [ParserValue.sizedStringsOk, beq_iff_eq] at hwf
    simp [← h, ParserValue.argSize, hwf]
  | Raw b =>
    simp only [encodeArg, Except.ok.injEq] at h
    simp [← h, ParserValue.argSize]
  | Number n =>
    simp only [encodeArg, Except.ok.injEq] at h
    simp [← h, ParserValue.argSize, length_writeI32]
  | Named v =>
    simp only [encodeArg] at h
    split at h
    · split at h
      · simp only [Except.ok.injEq] at h
        simp [← h, ParserValue.argSize, length_writeI32]
      · simp at h
    · simp at h
  | NamedMem v =>
    simp only [encodeArg] at h
    split at h
    · simp only [Except.ok.injEq] at h
      simp [← h, ParserValue.argSize, length_writeI32]
    · simp at h
  | Mem v =>
    simp only [encodeArg, Except.ok.injEq] at h
    simp [← h, ParserValue.argSize, length_writeI32]
  | Val v =>
    simp only [encodeArg, Except.ok.injEq] at h
    simp [← h, ParserValue.argSize, length_writeI32]
  | BadTag t v =>
    simp only [encodeArg, Except.ok.injEq] at h
    simp [← h, ParserValue.argSize, length_writeI32]

theorem encodeArgsFrom_ok_length (bo : ByteOrder) (db : ScriptConfig) (info : GenericInstruction) :
    ∀ (args : List ParserValue) (index : Nat) (bs : List Nat),
      (∀ a ∈ args, a.sizedStringsOk = true) →
      encodeArgsFrom bo db info index args = .ok bs →
      bs.length = (args.map ParserValue.argSize).sum := by
  intro args
  induction args with
  | nil =>
    intro index bs _ h
    simp only [encodeArgsFrom, Except.ok.injEq] at h
    simp [← h]
  | cons a rest ih =>
    intro index bs hwf h
    unfold encodeArgsFrom at h
    rcases ha : encodeArg bo db info index a with e | b <;> rw [ha] at h
    · simp at h
    · rcases hr : encodeArgsFrom bo db info (index + 1) rest with e | bs2 <;> rw [hr] at h
      · simp at h
      · simp only [Except.ok.injEq] at h
        have hb := encodeArg_ok_length bo db info index a b (hwf a (by simp)) ha
        have hb2 := ih (index + 1) bs2 (fun x hx => hwf x (by simp [hx])) hr
        simp [← h, hb, hb2]

/-- C6: on a fixed-size catalog, a call resolving to an instruction with a
declared size either matches that size exactly or fails: a mismatch
produces the `IncorrectFunctionSize` error carrying the instruction name,
the computed size, and the expected size; a match emits exactly the
declared number of bytes — a 4-byte opcode ID plus the per-argument
encodings — with nothing padded or truncated. -/
theorem sized_encode_size_check (bo : ByteOrder) (db : ScriptConfig) (st : AsmState)
    (f : BBSFunction) (info : GenericInstruction) (s : Nat)
    (hdb : db.is_unsized = false)
    (hres : resolveInstruction db f = some (.ok info))
    (hsz : info.sizeOpt = some s) :
    (f.total_size ≠ s →
        assembleStep bo db st f
          = some (.error (.IncorrectFunctionSize f.name f.total_size s)))
      ∧ (f.total_size = s → (∀ a ∈ f.args, a.sizedStringsOk = true) →
          ∀ st2, assembleStep bo db st f = some (.ok st2) →
            st2.script.length = st.script.length + s) := by
  constructor
  · intro hne
    unfold assembleStep
    rw [hres]
    dsimp only
    rw [hsz]
    dsimp only
    rw [if_pos hne]
  · intro heq hwf st2 hstep
    unfold assembleStep at hstep
    rw [hres] at hstep
    dsimp only at hstep
    rw [hsz] at hstep
    dsimp only at hstep
    rw [if_neg (by omega : ¬f.total_size ≠ s)] at hstep
    simp only [Option.some.injEq] at hstep
    unfold assembleStepEmit at hstep
    dsimp only at hstep
    rcases he : encodeArgsFrom bo db info 0 f.args with e | bs <;> rw [he] at hstep
    · simp at hstep
    · simp only [Except.ok.injEq] at hstep
      have hbs := encodeArgsFrom_ok_length bo db info f.args 0 bs hwf he
      have hts : f.total_size = 4 + (f.args.map ParserValue.argSize).sum := rfl
      subst hstep
      simp only [hdb, Bool.false_eq_true, if_false, List.length_append, length_writeU32]
      omega

/-- C6 witness: the call `Op: 1, 2` computes size 12 against the declared
size 8 of `Op` in `c2db` and is rejected with both sizes in the error. -/
theorem sized_encode_size_check_witness :
    assembleStep .le c2db { offset := 0, script := [], jumpCount := 0, jumpTable := [] }
        { name := "Op", args := [.Number 1, .Number 2] }
      = some (.error (.IncorrectFunctionSize ("Op") 12 8)) :=
  (sized_encode_size_check .le c2db
    { offset := 0, script := [], jumpCount := 0, jumpTable := [] }
    { name := "Op", args := [.Number 1, .Number 2] }
    (.Sized 1 { size := 8, name := "Op", code_block := .NoBlock, args := [.Number] }) 8
    rfl rfl rfl).1 (by decide)

theorem parse_sized_error_shape (db : ScriptConfig) (m : List (Nat × SizedInstruction))
    (input : List Nat) (e : BBScriptError)
    (h : parse_sized db m input = some (.error e)) : ∃ id, e = .UnknownInstructionID id := by
  unfold parse_sized at h
  rcases h1 : getU32le input with _ | ⟨id, r1⟩ <;> rw [h1] at h
  · simp at h
  · dsimp only at h
    rcases h2 : lookupId m id with _ | instr <;> rw [h2] at h
    · simp only [Option.some.injEq, Except.error.injEq] at h
      exact ⟨id, h.symm⟩
    · dsimp only at h
      rcases h3 : decodeArgs db instr.fullArgs r1 with _ | ⟨args, rest⟩ <;> rw [h3] at h
      · simp at h
      · simp at h

theorem parse_unsized_no_error (db : ScriptConfig) (m : List (Nat × UnsizedInstruction))
    (input : List Nat) (e : BBScriptError) :
    parse_unsized db m input ≠ some (.error e) := by
  intro h
  unfold parse_unsized at h
  rcases h1 : getU32le input with _ | ⟨id, r1⟩ <;> rw [h1] at h
  · simp at h
  · dsimp only at h
    rcases h2 : getU32le r1 with _ | ⟨sz, r2⟩ <;> rw [h2] at h
    · simp at h
    · dsimp only at h
      rcases h3 : ((lookupId m id).getD UnsizedInstruction.new).args_with_known_size sz
          with _ | ats <;> rw [h3] at h
      · simp at h
      · dsimp only at h
        rcases h4 : decodeArgs db ats r2 with _ | ⟨args, rest⟩ <;> rw [h4] at h
        · simp at h
        · simp at h

theorem parseOne_error_shape (db : ScriptConfig) (input : List Nat) (e : BBScriptError)
    (h : parseOne db input = some (.error e)) : ∃ id, e = .UnknownInstructionID id := by
  unfold parseOne at h
  rcases hdb : db.instructions with m | m <;> rw [hdb] at h
  · exact parse_sized_error_shape db m input e h
  · exact absurd h (parse_unsized_no_error db m input e)

theorem parseScriptFuel_no_jump_error (db : ScriptConfig) :
    ∀ (fuel : Nat) (input : List Nat) (s : String),
      parseScriptFuel db fuel input ≠ some (.error (.IncorrectJumpTableSize s)) := by
  intro fuel
  induction fuel with
  | zero =>
    intro input s h
    simp [parseScriptFuel] at h
  | succ k ih =>
    intro input s h
    rcases input with _ | ⟨b, rest⟩
    · simp [parseScriptFuel] at h
    · rw [show parseScriptFuel db (k + 1) (b :: rest)
          = match parseOne db (b :: rest) with
            | none => none
            | some (.error e) => some (.error e)
            | some (.ok (iv, rest2)) =>
              (parseScriptFuel db k rest2).map (Except.map (fun l => iv :: l))
        from rfl] at h
      rcases hp : parseOne db (b :: rest) with _ | er <;> rw [hp] at h
      · simp at h
      · rcases er with e | ⟨iv, rest2⟩
        · simp only [Option.some.injEq, Except.error.injEq] at h
          obtain ⟨id, rfl⟩ := parseOne_error_shape db (b :: rest) e hp
          simp at h
        · dsimp only at h
          rcases hq : parseScriptFuel db k rest2 with _ | q <;> rw [hq] at h
          · simp at h
          · rcases q with e2 | l
            · simp [Except.map] at h
              subst h
              exact ih rest2 s hq
            · simp [Except.map] at h

/-- C7: for every catalog and every input on which the per-ID count reads
succeed, decode fails with the jump-table-size error exactly when 36 times
the summed counts is at least the input length remaining after the count
fields; otherwise it skips the table and hands the rest to the instruction
decoder, which can never produce that error. -/
theorem jump_table_size_check_iff (db : ScriptConfig) (input : List Nat)
    (total : Nat) (rest : List Nat)
    (h : readCounts db.jump_table_ids.length input = some (total, rest)) :
    (36 * total ≥ rest.length →
        db.parse input = some (.error (.IncorrectJumpTableSize (toString (36 * total)))))
      ∧ (36 * total < rest.length →
          db.parse input = parseScript db (rest.drop (36 * total))
            ∧ ∀ s, db.parse input ≠ some (.error (.IncorrectJumpTableSize s))) := by
  have hbase : db.parse input
      = if 36 * total ≥ rest.length then
          some (.error (.IncorrectJumpTableSize (toString (36 * total))))
        else parseScript db (rest.drop (36 * total)) := by
    unfold ScriptConfig.parse
    rw [h]
  constructor
  · intro hge
    rw [hbase, if_pos hge]
  · intro hlt
    have hne : ¬36 * total ≥ rest.length := by omega
    refine ⟨by rw [hbase, if_neg hne], ?_⟩
    intro s hcontra
    rw [hbase, if_neg hne] at hcontra
    exact parseScriptFuel_no_jump_error db _ _ s hcontra

/-- C7 witness: one jump-eligible ID, counts read as 1, nothing after the
count field, so 36 is at least the remaining length 0 and decode fails with
the jump-table-size error. -/
theorem jump_table_size_check_iff_witness :
    ScriptConfig.parse c2db [1, 0, 0, 0]
      = some (.error (.IncorrectJumpTableSize ("36"))) :=
  (jump_table_size_check_iff c2db [1, 0, 0, 0] 1 [] rfl).1 (by decide)

/-- C8: exactly one `Unknown` argument covering the exact remainder is
synthesized by the schema argument list of a fixed-size instruction
(`SizedInstruction::args`, used directly by `parse_sized`) when the
declared argument sizes fall short of the declared size minus the 4-byte
ID, and nothing is synthesized on an exact match. The `4 ≤ size` bound
marks the regime in which the source `usize` subtractions are exact. -/
theorem sized_args_unknown_synthesis (i : SizedInstruction) (_hsz : 4 ≤ i.size) :
    (sumArgSizes i.args < i.size - 4 →
        i.fullArgs = i.args ++ [.Unknown (i.size - 4 - sumArgSizes i.args)])
      ∧ (sumArgSizes i.args = i.size - 4 → i.fullArgs = i.args) := by
  constructor
  · intro h
    simp [SizedInstruction.fullArgs, Nat.ne_of_lt h]
  · intro h
    simp [SizedInstruction.fullArgs, h]

/-- C8 witness: declared size 12 with a single 4-byte argument leaves an
8-byte body, so one `Unknown 4` argument is synthesized after it. -/
theorem sized_args_unknown_synthesis_witness :
    SizedInstruction.fullArgs
        { size := 12, name := "Op", code_block := .NoBlock, args := [.Number] }
      = [.Number, .Unknown 4] :=
  (sized_args_unknown_synthesis
    { size := 12, name := "Op", code_block := .NoBlock, args := [.Number] }
    (by decide)).1 (by decide)

/-- C9: an `AccessedValue` whose tag matches neither configured constant
decodes to `Improper` with both raw numbers and without failing, the
formatter prints both numbers back, and re-encoding the `BadTag` call
argument that the textual form parses to (rebuilder grammar handler for
`unknown_tag` plus `tagged_value`) writes back exactly the original 4-byte
tag followed by the original 4-byte payload. -/
theorem improper_tag_roundtrip (db : ScriptConfig) (info : GenericInstruction)
    (index : Nat) (tag value : Int) (rest : List Nat)
    (h1 : tag ≠ db.literal_tag) (h2 : tag ≠ db.variable_tag)
    (htl : -2147483648 ≤ tag) (hth : tag < 2147483648)
    (hvl : -2147483648 ≤ value) (hvh : value < 2147483648) :
    decodeArg db .AccessedValue (writeI32 .le tag ++ (writeI32 .le value ++ rest))
        = some (.AccessedValue (.Improper tag value), rest)
      ∧ arg_to_string db (.AccessedValue (.Improper tag value))
          = some (("BadTag(") ++ toString tag ++ (", ") ++ toString value ++ (")"))
      ∧ encodeArg .le db info index (.BadTag tag value)
          = .ok (writeI32 .le tag ++ writeI32 .le value) := by
  refine ⟨?_, rfl, rfl⟩
  unfold decodeArg
  dsimp only
  rw [getI32le_writeI32_le tag htl hth]
  dsimp only
  rw [getI32le_writeI32_le value hvl hvh]
  dsimp only
  rw [if_neg h1, if_neg h2]

/-- C9 witness at tag 7 and payload 9 against tags 0 and 2. -/
theorem improper_tag_roundtrip_witness :
    decodeArg c2db .AccessedValue [7, 0, 0, 0, 9, 0, 0, 0]
        = some (.AccessedValue (.Improper 7 9), [])
      ∧ arg_to_string c2db (.AccessedValue (.Improper 7 9)) = some ("BadTag(7, 9)")
      ∧ encodeArg .le c2db
          (.Sized 1 { size := 8, name := "Op", code_block := .NoBlock, args := [.Number] })
          0 (.BadTag 7 9)
          = .ok [7, 0, 0, 0, 9, 0, 0, 0] :=
  improper_tag_roundtrip c2db
    (.Sized 1 { size := 8, name := "Op", code_block := .NoBlock, args := [.Number] })
    0 7 9 [] (by decide) (by decide) (by decide) (by decide) (by decide) (by decide)

theorem encodeArg_jti (bo : ByteOrder) (l : List Nat) (db : ScriptConfig)
    (info : GenericInstruction) (index : Nat) (a : ParserValue) :
    encodeArg bo { db with jump_table_ids := l } info index a
      = encodeArg bo db info index a := by
  cases a <;> rfl

theorem encodeArgsFrom_jti (bo : ByteOrder) (l : List Nat) (db : ScriptConfig)
    (info : GenericInstruction) :
    ∀ (args : List ParserValue) (index : Nat),
      encodeArgsFrom bo { db with jump_table_ids := l } info index args
        = encodeArgsFrom bo db info index args := by
  intro args
  induction args with
  | nil => intro index; rfl
  | cons a rest ih =>
    intro index
    unfold encodeArgsFrom
    rw [encodeArg_jti, ih]

theorem assembleStepEmit_skip_jump (bo : ByteOrder) (db : ScriptConfig) (st : AsmState)
    (f : BBSFunction) (info : GenericInstruction) (hns : notString32Head f = true) :
    assembleStepEmit bo db st f info
      = match encodeArgsFrom bo db info 0 f.args with
        | .error e => .error e
        | .ok bs =>
          let script3 :=
            (if db.is_unsized then
              st.script ++ writeU32 bo info.id ++ writeU32 bo (f.total_size + 4)
            else st.script ++ writeU32 bo info.id) ++ bs
          .ok { offset := script3.length, script := script3,
                jumpCount := st.jumpCount, jumpTable := st.jumpTable } := by
  have hpair :
      (if db.is_jump_entry_id info.id then
        match f.args.head? with
        | some (.String32 name) =>
          (st.jumpTable ++ name ++ writeU32 bo st.offset, st.jumpCount + 1)
        | _ => (st.jumpTable, st.jumpCount)
      else (st.jumpTable, st.jumpCount)) = (st.jumpTable, st.jumpCount) := by
    unfold notString32Head at hns
    rcases hj : db.is_jump_entry_id info.id
    · simp
    · simp only [if_pos rfl]
      rcases hh : f.args.head? with _ | pv
      · rfl
      · rw [hh] at hns
        cases pv <;> simp_all
  unfold assembleStepEmit
  rw [hpair]

/-- C10: a call whose resolved ID is jump-eligible but whose first
argument is absent or not a 32-byte string behaves exactly as if the ID
were not jump-eligible at all: the step result is unchanged by emptying
the jump-ID list, no error arises from the missing entry, the instruction
is still emitted, and any successful step leaves the jump-table
accumulator and its count untouched. -/
theorem jump_eligible_without_name_skipped (bo : ByteOrder) (db : ScriptConfig)
    (st : AsmState) (f : BBSFunction) (info : GenericInstruction)
    (hres : resolveInstruction db f = some (.ok info))
    (_hj : db.is_jump_entry_id info.id = true)
    (hns : notString32Head f = true) :
    assembleStep bo db st f
        = assembleStep bo { db with jump_table_ids := [] } st f
      ∧ ∀ st2, assembleStep bo db st f = some (.ok st2) →
          st2.jumpTable = st.jumpTable ∧ st2.jumpCount = st.jumpCount := by
  have hres2 : resolveInstruction { db with jump_table_ids := [] } f = some (.ok info) := hres
  have hemit : assembleStepEmit bo db st f info
      = assembleStepEmit bo { db with jump_table_ids := [] } st f info := by
    rw [assembleStepEmit_skip_jump bo db st f info hns,
      assembleStepEmit_skip_jump bo { db with jump_table_ids := [] } st f info hns]
    conv_rhs => rw [encodeArgsFrom_jti bo ([]) db info f.args 0]
    rfl
  constructor
  · unfold assembleStep
    rw [hres, hres2]
    dsimp only
    rcases hsz : info.sizeOpt with _ | s
    · rw [hemit]
    · dsimp only
      by_cases hc : f.total_size ≠ s
      · rw [if_pos hc, if_pos hc]
      · rw [if_neg hc, if_neg hc, hemit]
  · intro st2 hstep
    unfold assembleStep at hstep
    rw [hres] at hstep
    dsimp only at hstep
    have hok : assembleStepEmit bo db st f info = .ok st2 := by
      rcases hsz : info.sizeOpt with _ | s <;> rw [hsz] at hstep <;> dsimp only at hstep
      · exact Option.some.inj hstep
      · by_cases hc : f.total_size ≠ s
        · rw [if_pos hc] at hstep
          simp at hstep
        · rw [if_neg hc] at hstep
          exact Option.some.inj hstep
    rw [assembleStepEmit_skip_jump bo db st f info hns] at hok
    rcases he : encodeArgsFrom bo db info 0 f.args with e | bs <;> rw [he] at hok
    · simp at hok
    · simp only [Except.ok.injEq] at hok
      rw [← hok]
      exact ⟨rfl, rfl⟩

/-- Sized catalog whose instruction 5 `J` is jump-eligible. -/
def c10db : ScriptConfig :=
  { jump_table_ids := [5], literal_tag := 0, variable_tag := 2,
    named_variables := [], named_value_maps := [],
    instructions := .Sized
      [(5, { size := 8, name := "J", code_block := .NoBlock, args := [.Number] })] }

/-- C10 witness: instruction 5 is jump-eligible in `c10db` but the call
passes a number first, so the step equals the step on the catalog with no
jump-eligible IDs. -/
theorem jump_eligible_without_name_skipped_witness :
    assembleStep .le c10db { offset := 0, script := [], jumpCount := 0, jumpTable := [] }
        { name := "J", args := [.Number 1] }
      = assembleStep .le { c10db with jump_table_ids := [] }
          { offset := 0, script := [], jumpCount := 0, jumpTable := [] }
          { name := "J", args := [.Number 1] } :=
  (jump_eligible_without_name_skipped .le c10db
    { offset := 0, script := [], jumpCount := 0, jumpTable := [] }
    { name := "J", args := [.Number 1] }
    (.Sized 5 { size := 8, name := "J", code_block := .NoBlock, args := [.Number] })
    rfl rfl rfl).1

end BBScript
